import Mathlib

/-
Shallow embedding of `src/services/document-processor/main.py`
(N8N AI Starter Kit, document-processor service).

Python strings are modelled as `List Char`; the Python `str` helpers
used by the service (`strip`, `split`, `join`, negative slices,
`lower`) are modelled explicitly below, following CPython semantics.
ASCII case-folding is used for `lower` (every filename extension the
service dispatches on is ASCII).
-/

/-- Model of the whitespace test used by Python `str.strip`. -/
def isPySpace (c : Char) : Bool := c.isWhitespace

/-- Model of Python `s.strip()`: remove whitespace from both ends. -/
def pyStrip (s : List Char) : List Char :=
  ((s.dropWhile isPySpace).reverse.dropWhile isPySpace).reverse

/-- Accumulator-based splitter behind `pySplit`. -/
def pySplitAux (sep : Char) : List Char → List Char → List (List Char)
  | [], acc => [acc.reverse]
  | c :: cs, acc =>
    if c = sep then acc.reverse :: pySplitAux sep cs []
    else pySplitAux sep cs (c :: acc)

/-- Model of Python `s.split(sep)` for a one-character separator:
`"a.b".split('.') = ["a","b"]`, `"".split('.') = [""]`,
`"a.".split('.') = ["a",""]`. -/
def pySplit (sep : Char) (s : List Char) : List (List Char) :=
  pySplitAux sep s []

/-- Model of Python `sep.join(parts)`. -/
def pyJoin (sep : List Char) : List (List Char) → List Char
  | [] => []
  | [x] => x
  | x :: y :: xs => x ++ sep ++ pyJoin sep (y :: xs)

/-- Model of the Python slice `l[-k:]`.  For `k > 0` this is the last
`k` elements (all of `l` when `k ≥ len(l)`); for `k = 0` Python's
`l[-0:]` is `l[0:]`, i.e. the whole list. -/
def pyTailSlice (k : Nat) (l : List α) : List α :=
  if k = 0 then l else l.drop (l.length - k)

/-- One chunk record produced by `DocumentProcessor.chunk_text`
(the Python dict `{'text', 'index', 'start_sentence', 'end_sentence'}`). -/
structure Chunk where
  text : List Char
  index : Nat
  start_sentence : Int
  end_sentence : Int
deriving Repr, DecidableEq

/-- Loop body of `DocumentProcessor.chunk_text` (main.py lines 266-288):
one iteration of `for i, sentence in enumerate(sentences)` acting on the
state `(chunks, current_chunk, current_size)`. -/
def chunkStep (chunk_size overlap : Nat) (i : Nat) (sentence0 : List Char)
    (st : List Chunk × List Char × Nat) : List Chunk × List Char × Nat :=
  let chunks := st.1
  let current_chunk := st.2.1
  let current_size := st.2.2
  let sentence := pyStrip sentence0
  if sentence = [] then st
  else
    let sentence_size := sentence.length
    if current_size + sentence_size > chunk_size ∧ current_chunk ≠ [] then
      let newChunk : Chunk :=
        { text := pyStrip current_chunk,
          index := chunks.length,
          start_sentence := (i : Int) - ((pySplit '.' current_chunk).length : Int),
          end_sentence := (i : Int) }
      let chunks' := chunks ++ [newChunk]
      let overlap_text := pyJoin ('.' :: [' ']) (pyTailSlice overlap (pySplit '.' current_chunk))
      let current_chunk' :=
        if overlap_text ≠ [] then overlap_text ++ ('.' :: [' ']) ++ sentence else sentence
      (chunks', current_chunk', current_chunk'.length)
    else
      let current_chunk' :=
        current_chunk ++ (if current_chunk ≠ [] then ('.' :: [' ']) ++ sentence else sentence)
      (chunks, current_chunk', current_chunk'.length)

/-- Iterated loop of `chunk_text` over the sentence list, carrying the
`enumerate` counter `i`. -/
def chunkLoop (chunk_size overlap : Nat) :
    Nat → List (List Char) → (List Chunk × List Char × Nat) →
    List Chunk × List Char × Nat
  | _, [], st => st
  | i, s :: ss, st =>
    chunkLoop chunk_size overlap (i + 1) ss (chunkStep chunk_size overlap i s st)

/-- Model of `DocumentProcessor.chunk_text` (main.py lines 256-299). -/
def chunk_text (text : List Char) (chunk_size : Nat := 500) (overlap : Nat := 50) :
    List Chunk :=
  if pyStrip text = [] then []
  else
    let sentences := pySplit '.' text
    let st := chunkLoop chunk_size overlap 0 sentences ([], [], 0)
    let chunks := st.1
    let current_chunk := st.2.1
    if pyStrip current_chunk ≠ [] then
      let lastChunk : Chunk :=
        { text := pyStrip current_chunk,
          index := chunks.length,
          start_sentence := (sentences.length : Int) - ((pySplit '.' current_chunk).length : Int),
          end_sentence := (sentences.length : Int) }
      chunks ++ [lastChunk]
    else chunks

/-- Outcome of a Python sub-computation that may raise an exception:
used for the helper extractors `_extract_pdf_text`, `_extract_docx_text`
and for `file_content.decode('utf-8')`. -/
inductive PyOutcome where
  | ok (text : List Char)
  | exn (msg : List Char)
deriving Repr, DecidableEq

/-- A raised exception as observed by callers of `extract_text`: either a
FastAPI `HTTPException` (status code plus detail string) or another
exception carrying its message. -/
inductive PyExn where
  | http (status : Nat) (detail : List Char)
  | generic (msg : List Char)
deriving Repr, DecidableEq

/-- Model of Python `str(e)` on a caught exception: Starlette's
`HTTPException.__str__` renders the status code, a colon-space, and the
detail; any other exception renders its message. -/
def pyExnStr : PyExn → List Char
  | .http s d => (Nat.repr s).toList ++ (':' :: [' ']) ++ d
  | .generic m => m

/-- Abstraction of one uploaded file's bytes: the outcomes that the three
content-dependent helpers produce on that content.  `utf8Result = exn`
means `decode('utf-8')` raises `UnicodeDecodeError` (the bytes are not
valid UTF-8). -/
structure FileContent where
  pdfResult : PyOutcome
  docxResult : PyOutcome
  utf8Result : PyOutcome
deriving Repr, DecidableEq

/-- Result of a call to `extract_text`: the extracted text, or the
exception it raises. -/
inductive ExtractResult where
  | ok (text : List Char)
  | raised (e : PyExn)
deriving Repr, DecidableEq

/-- Run a helper inside the try-block of `extract_text`: a raised helper
exception propagates. -/
def runHelper : PyOutcome → ExtractResult
  | .ok t => .ok t
  | .exn m => .raised (.generic m)

/-- Model of `DocumentProcessor.extract_text` (main.py lines 200-223).
The extension dispatch is on `filename.lower().split('.')[-1]` when the
filename contains a dot, else the empty extension.  The whole dispatch
body sits in a `try` whose bare `except Exception` handler re-raises
every exception — including the inner `HTTPException` for an
unsupported format — as `HTTPException(400, "Failed to extract text: "
+ str(e))`. -/
def extract_text (content : FileContent) (filename : List Char) :
    ExtractResult :=
  let file_ext :=
    if filename.contains '.' then (pySplit '.' (filename.map Char.toLower)).getLastD []
    else []
  let body : ExtractResult :=
    if file_ext = "pdf".toList then runHelper content.pdfResult
    else if file_ext = "docx".toList ∨ file_ext = "doc".toList then
      runHelper content.docxResult
    else if file_ext = "txt".toList ∨ file_ext = "md".toList then
      runHelper content.utf8Result
    else
      match content.utf8Result with
      | .ok t => .ok t
      | .exn _ => .raised (.http 400 ("Unsupported file format: ".toList ++ file_ext))
  match body with
  | .ok t => .ok t
  | .raised e => .raised (.http 400 ("Failed to extract text: ".toList ++ pyExnStr e))

/-- Document lifecycle status values written by the service. -/
inductive Status where
  | processing
  | processed
  | error
deriving Repr, DecidableEq

/-- A row of `documents.document_store` (the columns the claims are
about: filename, extracted content, lifecycle status; the timestamp,
content-type and size columns are written but never branched on in the
source, and are omitted). -/
structure DocRow where
  filename : List Char
  content : Option (List Char)
  status : Status
deriving Repr, DecidableEq

/-- A row of `documents.embeddings` inserted by the dual-store write
(main.py lines 483-487).  `id` is the freshly generated `embedding_id`;
`uuid.uuid4()` is modelled by a deterministic fresh-identifier counter. -/
structure EmbRow where
  id : Nat
  document_id : Nat
  chunk_index : Nat
  chunk_text : List Char
  chunk_metadata : Chunk
  embedding : List Int
deriving Repr, DecidableEq

/-- A Qdrant point upserted at main.py lines 490-507.  `id` is its own
freshly generated uuid, generated independently of the relational
`embedding_id`. -/
structure QPoint where
  id : Nat
  vector : List Int
  payload_document_id : Nat
  payload_filename : List Char
  payload_chunk_index : Nat
  payload_chunk_text : List Char
  payload_metadata : Chunk
deriving Repr, DecidableEq

/-- Combined state of the relational store and the vector store.
`nextUuid` is the fresh-identifier supply modelling `uuid.uuid4()`;
`statusLog` is a ghost history recording every status value actually
written for a document row (the INSERT at upload time and every
effective UPDATE of `status`), used to state the transition claims. -/
structure SysState where
  docs : List (Nat × DocRow)
  embRows : List EmbRow
  qPoints : List QPoint
  nextUuid : Nat
  statusLog : List (Nat × Status)
deriving Repr, DecidableEq

/-- Model of `UPDATE documents.document_store ... WHERE id = $1`: rewrite
the matching row (no matching row means nothing changes) and record the
written status in the ghost log. -/
def updateDocRow (st : SysState) (docId : Nat) (f : DocRow → DocRow) : SysState :=
  match st.docs.lookup docId with
  | none => st
  | some row =>
    { st with
      docs := st.docs.map (fun p => if p.1 = docId then (p.1, f p.2) else p),
      statusLog := st.statusLog ++ [(docId, (f row).status)] }

/-- Rows inserted into `documents.embeddings` by the transaction loop
(main.py lines 479-487): the `i`-th chunk gets the next fresh
`embedding_id`, sequence index `i`, its text, itself as the metadata
record, and its embedding vector. -/
def mkEmbRows (embed : List Char → List Int) (docId base i : Nat) :
    List Chunk → List EmbRow
  | [] => []
  | c :: cs =>
    { id := base, document_id := docId, chunk_index := i, chunk_text := c.text,
      chunk_metadata := c, embedding := embed c.text }
      :: mkEmbRows embed docId (base + 1) (i + 1) cs

/-- Points built for the Qdrant upsert (main.py lines 490-502): the `i`-th
point carries the same vector and payload data as the `i`-th relational
row, but under a fresh uuid of its own. -/
def mkPoints (embed : List Char → List Int) (docId : Nat) (filename : List Char)
    (base i : Nat) : List Chunk → List QPoint
  | [] => []
  | c :: cs =>
    { id := base, vector := embed c.text, payload_document_id := docId,
      payload_filename := filename, payload_chunk_index := i,
      payload_chunk_text := c.text, payload_metadata := c }
      :: mkPoints embed docId filename (base + 1) (i + 1) cs

/-- Failure-injection environment for one background processing run: the
outcome of `extract_text` on the uploaded bytes, the embedding model as
a pure per-text function (`model_manager.encode` is order-preserving),
and whether each external write succeeds.  `txOk` is the relational
transaction of lines 469-487, `vecOk` the Qdrant upsert of lines
504-507, `errUpdOk` the status-error UPDATE of lines 526-531. -/
structure RunEnv where
  extractResult : ExtractResult
  embed : List Char → List Int
  txOk : Bool
  vecOk : Bool
  errUpdOk : Bool

/-- Model of the `except Exception` handler of
`process_document_background` (main.py lines 517-535): try to set the
document status to `error`; if that UPDATE itself fails the row is left
as it was. -/
def runErrorHandler (env : RunEnv) (docId : Nat) (st : SysState) : SysState :=
  if env.errUpdOk then updateDocRow st docId (fun r => { r with status := .error })
  else st

/-- Model of `process_document_background` (main.py lines 445-538):
extract, chunk (zero chunks raises), embed, then the dual-store write.
The relational transaction atomically sets `content` and
`status = processed` on the document row and inserts one row per chunk;
a transaction failure rolls everything back.  The Qdrant upsert runs
after the commit; any exception anywhere lands in the error handler. -/
def process_document_background (env : RunEnv) (docId : Nat)
    (filename : List Char) (chunk_size overlap : Nat) (st : SysState) : SysState :=
  match env.extractResult with
  | .raised _ => runErrorHandler env docId st
  | .ok text =>
    let chunks := chunk_text text chunk_size overlap
    if chunks = [] then runErrorHandler env docId st
    else if env.txOk then
      let st1 := updateDocRow st docId
        (fun r => { r with content := some text, status := .processed })
      let st2 :=
        { st1 with
          embRows := st1.embRows ++ mkEmbRows env.embed docId st1.nextUuid 0 chunks,
          nextUuid := st1.nextUuid + chunks.length }
      if env.vecOk then
        { st2 with
          qPoints := st2.qPoints ++ mkPoints env.embed docId filename st2.nextUuid 0 chunks,
          nextUuid := st2.nextUuid + chunks.length }
      else runErrorHandler env docId st2
    else runErrorHandler env docId st

/-- Model of the upload handler's INSERT (main.py lines 416-421): a new
document row with status `processing`, after which
`process_document_background` is scheduled with the same fresh id. -/
def upload_document (docId : Nat) (filename : List Char) (st : SysState) : SysState :=
  { st with
    docs := st.docs ++
      [(docId, { filename := filename, content := none, status := .processing })],
    statusLog := st.statusLog ++ [(docId, .processing)] }

/-- Empty initial system state. -/
def emptyState : SysState :=
  { docs := [], embRows := [], qPoints := [], nextUuid := 0, statusLog := [] }

/-- Persisted status of a document row. -/
def statusOf (st : SysState) (docId : Nat) : Option Status :=
  (st.docs.lookup docId).map DocRow.status

/-- Relational chunk rows belonging to one document. -/
def relRowsFor (st : SysState) (docId : Nat) : List EmbRow :=
  st.embRows.filter (fun r => r.document_id == docId)

/-- Vector-store points whose payload names one document. -/
def pointsFor (st : SysState) (docId : Nat) : List QPoint :=
  st.qPoints.filter (fun p => p.payload_document_id == docId)

/-- Ghost history of the status values written for one document, in
write order. -/
def docStatusLog (st : SysState) (docId : Nat) : List Status :=
  (st.statusLog.filter (fun e => e.1 == docId)).map Prod.snd

/-- Formalisation of the identifier clause of the claimed dual-store
invariant: every relational chunk row of the document is present in the
vector store under the same identifier and with the same vector. -/
def dualStoreSameIdCheck (st : SysState) (docId : Nat) : Bool :=
  (relRowsFor st docId).all fun r =>
    (pointsFor st docId).any fun p => p.id == r.id && p.vector == r.embedding

/-- Transition set claimed by the spec: `processing → processed` and
`processing → error` only. -/
def specAllowedTransition (a b : Status) : Bool :=
  a == .processing && (b == .processed || b == .error)

/-- Check that every adjacent pair of status writes in a history is in
the spec's claimed transition set. -/
def logRespectsSpecTransitions (l : List Status) : Bool :=
  (l.zip l.tail).all fun ab => specAllowedTransition ab.1 ab.2

/-- Transition set the code actually realises: the spec's two
transitions plus the `processed → error` flip performed by the error
handler when a failure occurs after the relational commit. -/
def codeTransition (a b : Status) : Bool :=
  (a == .processing && (b == .processed || b == .error)) ||
    (a == .processed && b == .error)

/-- Check that every adjacent pair of status writes in a history is in
the code's realised transition set. -/
def logRespectsCodeTransitions (l : List Status) : Bool :=
  (l.zip l.tail).all fun ab => codeTransition ab.1 ab.2

/-- Environment of a fully successful run on the text "hello":
extraction succeeds, chunking yields one chunk, both stores accept
their writes. -/
def envAllOk : RunEnv :=
  { extractResult := .ok "hello".toList, embed := fun _ => [1], txOk := true,
    vecOk := true, errUpdOk := true }

/-- Same run but the Qdrant upsert fails after the relational commit. -/
def envVecFail : RunEnv := { envAllOk with vecOk := false }

/-- Same run but the relational transaction fails. -/
def envTxFail : RunEnv := { envAllOk with txOk := false }

/-- Upload document 7 into the empty system and run the background task
under the given environment. -/
def runOn (env : RunEnv) : SysState :=
  process_document_background env 7 "f.txt".toList 500 50
    (upload_document 7 "f.txt".toList emptyState)

/-- Chunk-index well-formedness: the i-th element of a chunk list
carries index i. -/
def goodIdx (l : List Chunk) : Prop :=
  l.map Chunk.index = List.range l.length

/-- Chunk-text well-formedness: non-empty, contains a non-whitespace
character, and is its own stripped form. -/
def goodChunk (c : Chunk) : Prop :=
  c.text ≠ [] ∧ (∃ x ∈ c.text, isPySpace x = false) ∧ pyStrip c.text = c.text

/-- Loop invariant for `chunkLoop` used for the chunk-text claims: the
running buffer is empty or contains a non-whitespace character, and all
emitted chunks are well-formed. -/
def chunkInv (st : List Chunk × List Char × Nat) : Prop :=
  (st.2.1 = [] ∨ ∃ x ∈ st.2.1, isPySpace x = false) ∧ ∀ c ∈ st.1, goodChunk c

theorem dropWhile_nil_or_head (p : α → Bool) (l : List α) :
    l.dropWhile p = [] ∨ ∃ a t, l.dropWhile p = a :: t ∧ p a = false := by
  induction l with
  | nil => exact Or.inl rfl
  | cons a t ih =>
    by_cases h : p a = true
    · simpa [List.dropWhile_cons, h] using ih
    · refine Or.inr ⟨a, t, ?_, by simpa using h⟩
      simp [List.dropWhile_cons, h]

theorem dropWhile_of_head_false (p : α → Bool) (a : α) (t : List α)
    (h : p a = false) : (a :: t).dropWhile p = a :: t := by
  simp [List.dropWhile_cons, h]

theorem dropWhile_idem (p : α → Bool) (l : List α) :
    (l.dropWhile p).dropWhile p = l.dropWhile p := by
  rcases dropWhile_nil_or_head p l with h | ⟨a, t, h, hp⟩
  · simp [h]
  · rw [h, dropWhile_of_head_false p a t hp]

theorem mem_dropWhile_of_not (p : α → Bool) (l : List α) (x : α)
    (hx : x ∈ l) (hpx : p x = false) : x ∈ l.dropWhile p := by
  induction l with
  | nil => cases hx
  | cons a t ih =>
    by_cases h : p a = true
    · rw [List.dropWhile_cons, if_pos h]
      rcases List.mem_cons.mp hx with rfl | hxt
      · rw [hpx] at h; cases h
      · exact ih hxt
    · rw [List.dropWhile_cons, if_neg h]; exact hx

theorem mem_pyStrip_of_not (s : List Char) (x : Char)
    (hx : x ∈ s) (hpx : isPySpace x = false) : x ∈ pyStrip s := by
  unfold pyStrip
  rw [List.mem_reverse]
  refine mem_dropWhile_of_not _ _ _ ?_ hpx
  rw [List.mem_reverse]
  exact mem_dropWhile_of_not _ _ _ hx hpx

theorem pyStrip_ne_nil_of_nonspace (s : List Char) (x : Char)
    (hx : x ∈ s) (hpx : isPySpace x = false) : pyStrip s ≠ [] := by
  intro h
  have hmem := mem_pyStrip_of_not s x hx hpx
  rw [h] at hmem
  cases hmem

theorem pyStrip_nil_or_head (s : List Char) :
    pyStrip s = [] ∨ ∃ a t, pyStrip s = a :: t ∧ isPySpace a = false := by
  rcases dropWhile_nil_or_head isPySpace s with hu | ⟨a, t, hu, hpa⟩
  · left
    unfold pyStrip
    rw [hu]
    rfl
  · cases hvr : ((s.dropWhile isPySpace).reverse.dropWhile isPySpace).reverse with
    | nil => exact Or.inl hvr
    | cons b t' =>
      right
      refine ⟨b, t', hvr, ?_⟩
      have hsplit : (s.dropWhile isPySpace).reverse.takeWhile isPySpace ++
          (s.dropWhile isPySpace).reverse.dropWhile isPySpace
          = (s.dropWhile isPySpace).reverse := List.takeWhile_append_dropWhile _ _
      have hu2 : s.dropWhile isPySpace
          = ((s.dropWhile isPySpace).reverse.dropWhile isPySpace).reverse ++
            ((s.dropWhile isPySpace).reverse.takeWhile isPySpace).reverse := by
        conv_lhs => rw [← List.reverse_reverse (s.dropWhile isPySpace), ← hsplit]
        rw [List.reverse_append]
      rw [hvr] at hu2
      rw [hu, List.cons_append] at hu2
      injection hu2 with h1 _
      rw [h1] at hpa
      exact hpa

theorem pyStrip_eq_self (s : List Char)
    (h1 : s.dropWhile isPySpace = s)
    (h2 : s.reverse.dropWhile isPySpace = s.reverse) :
    pyStrip s = s := by
  unfold pyStrip
  rw [h1, h2, List.reverse_reverse]

theorem pyStrip_idem (s : List Char) : pyStrip (pyStrip s) = pyStrip s := by
  refine pyStrip_eq_self _ ?_ ?_
  · rcases pyStrip_nil_or_head s with h | ⟨a, t, h, hp⟩
    · rw [h]; rfl
    · rw [h]; exact dropWhile_of_head_false _ _ _ hp
  · show (pyStrip s).reverse.dropWhile isPySpace = (pyStrip s).reverse
    unfold pyStrip
    rw [List.reverse_reverse]
    exact dropWhile_idem _ _

theorem char_toNat_ofNat_valid (n : Nat) (h : Nat.isValidChar n) :
    (Char.ofNat n).toNat = n := by
  simp only [Char.ofNat, h, dif_pos, Char.ofNatAux, Char.toNat, UInt32.toNat]
  simp

theorem toLower_idem (c : Char) : c.toLower.toLower = c.toLower := by
  unfold Char.toLower
  by_cases h : c.toNat ≥ 65 ∧ c.toNat ≤ 90
  · rw [if_pos h]
    have hv : Nat.isValidChar (c.toNat + 32) := Or.inl (by omega)
    rw [char_toNat_ofNat_valid _ hv]
    rw [if_neg (by omega)]
  · rw [if_neg h, if_neg h]

theorem eq_dot_of_toLower_eq_dot (c : Char) (h : c.toLower = '.') : c = '.' := by
  unfold Char.toLower at h
  by_cases hc : c.toNat ≥ 65 ∧ c.toNat ≤ 90
  · rw [if_pos hc] at h
    have hv : Nat.isValidChar (c.toNat + 32) := Or.inl (by omega)
    have h46 : (Char.ofNat (c.toNat + 32)).toNat = ('.' : Char).toNat := by rw [h]
    rw [char_toNat_ofNat_valid _ hv] at h46
    have : ('.' : Char).toNat = 46 := by decide
    omega
  · rw [if_neg hc] at h
    exact h

theorem map_toLower_idem (f : List Char) :
    (f.map Char.toLower).map Char.toLower = f.map Char.toLower := by
  rw [List.map_map]
  exact List.map_congr_left fun c _ => toLower_idem c

theorem contains_dot_map_toLower (f : List Char) :
    (f.map Char.toLower).contains '.' = f.contains '.' := by
  induction f with
  | nil => rfl
  | cons a t ih =>
    simp only [List.map_cons, List.contains_cons, ih]
    congr 1
    by_cases h : a = '.'
    · subst h; rfl
    · have h2 : Char.toLower a ≠ '.' := fun he => h (eq_dot_of_toLower_eq_dot a he)
      have l1 : ('.' == Char.toLower a) = false := beq_eq_false_iff_ne.mpr fun he => h2 he.symm
      have l2 : ('.' == a) = false := beq_eq_false_iff_ne.mpr fun he => h he.symm
      rw [l1, l2]

theorem chunkLoop_preserves (cs ov : Nat)
    (P : List Chunk × List Char × Nat → Prop)
    (hstep : ∀ i s st, P st → P (chunkStep cs ov i s st)) :
    ∀ (ss : List (List Char)) (i : Nat) (st : List Chunk × List Char × Nat),
      P st → P (chunkLoop cs ov i ss st) := by
  intro ss
  induction ss with
  | nil => intro i st h; exact h
  | cons s ss ih => intro i st h; exact ih _ _ (hstep i s st h)

theorem goodIdx_append (l : List Chunk) (t : List Char) (a b : Int)
    (h : goodIdx l) :
    goodIdx (l ++ [⟨t, l.length, a, b⟩]) := by
  unfold goodIdx at h ⊢
  rw [List.map_append, List.length_append, h]
  simp [List.range_succ]

theorem chunkStep_goodIdx (cs ov i : Nat) (s : List Char)
    (st : List Chunk × List Char × Nat) (h : goodIdx st.1) :
    goodIdx (chunkStep cs ov i s st).1 := by
  unfold chunkStep
  dsimp only
  split
  · exact h
  · split
    · exact goodIdx_append _ _ _ _ h
    · exact h

theorem nonspace_of_strip_ne_nil (s : List Char) (h : pyStrip s ≠ []) :
    ∃ x ∈ pyStrip s, isPySpace x = false := by
  rcases pyStrip_nil_or_head s with h0 | ⟨a, t, h0, hp⟩
  · exact absurd h0 h
  · exact ⟨a, by rw [h0]; exact List.mem_cons_self a t, hp⟩

theorem goodChunk_of_strip_ne_nil (cc : List Char) (n : Nat) (a b : Int)
    (h : pyStrip cc ≠ []) : goodChunk ⟨pyStrip cc, n, a, b⟩ :=
  ⟨h, nonspace_of_strip_ne_nil cc h, pyStrip_idem cc⟩

theorem chunkStep_chunkInv (cs ov : Nat) (i : Nat) (s : List Char)
    (st : List Chunk × List Char × Nat) (h : chunkInv st) :
    chunkInv (chunkStep cs ov i s st) := by
  unfold chunkInv at h ⊢
  obtain ⟨hbuf, hchunks⟩ := h
  unfold chunkStep
  dsimp only
  split
  · exact ⟨hbuf, hchunks⟩
  next hsen =>
    obtain ⟨x, hx, hpx⟩ := nonspace_of_strip_ne_nil s hsen
    split
    next hcond =>
      have hbufx : ∃ y ∈ st.2.1, isPySpace y = false := by
        rcases hbuf with hnil | hy
        · exact absurd hnil hcond.2
        · exact hy
      obtain ⟨y, hy, hpy⟩ := hbufx
      refine ⟨Or.inr ?_, ?_⟩
      · split
        · exact ⟨x, List.mem_append.mpr (Or.inr hx), hpx⟩
        · exact ⟨x, hx, hpx⟩
      · intro c hc
        rcases List.mem_append.mp hc with hold | hnew
        · exact hchunks c hold
        · rw [List.mem_singleton.mp hnew]
          exact goodChunk_of_strip_ne_nil _ _ _ _
            (pyStrip_ne_nil_of_nonspace _ y hy hpy)
    next hcond =>
      refine ⟨Or.inr ?_, hchunks⟩
      split
      · exact ⟨x, List.mem_append.mpr (Or.inr (List.mem_append.mpr (Or.inr hx))), hpx⟩
      · exact ⟨x, List.mem_append.mpr (Or.inr hx), hpx⟩

/-- Claim C8: for every text input and every chunk size and overlap, the
chunks returned by `chunk_text` carry strictly increasing, zero-based,
gap-free `index` values: the i-th emitted chunk has index i. -/
theorem c8_chunk_indices_dense (text : List Char) (cs ov : Nat) :
    (chunk_text text cs ov).map Chunk.index
      = List.range (chunk_text text cs ov).length := by
  show goodIdx (chunk_text text cs ov)
  unfold chunk_text
  by_cases h0 : pyStrip text = []
  · rw [if_pos h0]; rfl
  · rw [if_neg h0]
    dsimp only
    have hloop := chunkLoop_preserves cs ov (fun st => goodIdx st.1)
      (fun i s st h => chunkStep_goodIdx cs ov i s st h)
      (pySplit '.' text) 0 ([], [], 0) rfl
    split
    · exact goodIdx_append _ _ _ _ hloop
    · exact hloop

/-- Claim C10: every chunk emitted by `chunk_text` has non-empty text
containing at least one non-whitespace character, with no leading or
trailing whitespace (its text equals its own stripped form). -/
theorem c10_chunk_text_wellformed (text : List Char) (cs ov : Nat) (c : Chunk)
    (hc : c ∈ chunk_text text cs ov) :
    c.text ≠ [] ∧ (∃ x ∈ c.text, isPySpace x = false) ∧ pyStrip c.text = c.text := by
  have hgood : goodChunk c := by
    unfold chunk_text at hc
    by_cases h0 : pyStrip text = []
    · rw [if_pos h0] at hc; cases hc
    · rw [if_neg h0] at hc
      dsimp only at hc
      have hloop := chunkLoop_preserves cs ov chunkInv
        (fun i s st h => chunkStep_chunkInv cs ov i s st h)
        (pySplit '.' text) 0 ([], [], 0) ⟨Or.inl rfl, fun c hc => by cases hc⟩
      split at hc
      next hcc =>
        rcases List.mem_append.mp hc with hold | hnew
        · exact hloop.2 c hold
        · rw [List.mem_singleton.mp hnew]
          exact goodChunk_of_strip_ne_nil _ _ _ _ hcc
      next hcc => exact hloop.2 c hc
  exact hgood

/-- Witness for C10 at a concrete input: the single chunk of the text
"hi" is well-formed. -/
theorem c10_chunk_text_wellformed_witness :
    (⟨"hi".toList, 0, 0, 1⟩ : Chunk) ∈ chunk_text "hi".toList 500 50 ∧
      (("hi".toList : List Char) ≠ [] ∧
        (∃ x ∈ ("hi".toList : List Char), isPySpace x = false) ∧
        pyStrip "hi".toList = "hi".toList) :=
  ⟨by decide, c10_chunk_text_wellformed "hi".toList 500 50 ⟨"hi".toList, 0, 0, 1⟩ (by decide)⟩

theorem lookup_map_replace (l : List (Nat × DocRow)) (docId : Nat)
    (f : DocRow → DocRow) :
    (l.map fun p => if p.1 = docId then (p.1, f p.2) else p).lookup docId
      = (l.lookup docId).map f := by
  induction l with
  | nil => rfl
  | cons p t ih =>
    obtain ⟨k, v⟩ := p
    by_cases h : k = docId
    · subst h
      simp [List.lookup_cons]
    · have hb : (docId == k) = false := beq_eq_false_iff_ne.mpr fun he => h he.symm
      simp [List.lookup_cons, h, hb, ih]

theorem updateDocRow_embRows (st : SysState) (d : Nat) (f : DocRow → DocRow) :
    (updateDocRow st d f).embRows = st.embRows := by
  unfold updateDocRow
  cases st.docs.lookup d <;> rfl

theorem updateDocRow_qPoints (st : SysState) (d : Nat) (f : DocRow → DocRow) :
    (updateDocRow st d f).qPoints = st.qPoints := by
  unfold updateDocRow
  cases st.docs.lookup d <;> rfl

theorem updateDocRow_nextUuid (st : SysState) (d : Nat) (f : DocRow → DocRow) :
    (updateDocRow st d f).nextUuid = st.nextUuid := by
  unfold updateDocRow
  cases st.docs.lookup d <;> rfl

theorem updateDocRow_lookup (st : SysState) (d : Nat) (f : DocRow → DocRow) :
    (updateDocRow st d f).docs.lookup d = (st.docs.lookup d).map f := by
  unfold updateDocRow
  cases h : st.docs.lookup d with
  | none => simp [h]
  | some row => simp [h, lookup_map_replace]

theorem statusOf_updateDocRow (st : SysState) (d : Nat) (f : DocRow → DocRow) :
    statusOf (updateDocRow st d f) d
      = (st.docs.lookup d).map fun r => (f r).status := by
  unfold statusOf
  rw [updateDocRow_lookup]
  cases st.docs.lookup d <;> rfl

theorem mkEmbRows_length (embed : List Char → List Int) (d : Nat) :
    ∀ (chunks : List Chunk) (base i : Nat),
      (mkEmbRows embed d base i chunks).length = chunks.length := by
  intro chunks
  induction chunks with
  | nil => intro base i; rfl
  | cons c t ih => intro base i; simp [mkEmbRows, ih]

theorem mkEmbRows_filter_docId (embed : List Char → List Int) (d : Nat) :
    ∀ (chunks : List Chunk) (base i : Nat),
      (mkEmbRows embed d base i chunks).filter (fun r => r.document_id == d)
        = mkEmbRows embed d base i chunks := by
  intro chunks
  induction chunks with
  | nil => intro base i; rfl
  | cons c t ih =>
    intro base i
    simp [mkEmbRows, List.filter_cons, ih]

theorem mkPoints_filter_docId (embed : List Char → List Int) (d : Nat)
    (fname : List Char) :
    ∀ (chunks : List Chunk) (base i : Nat),
      (mkPoints embed d fname base i chunks).filter
          (fun p => p.payload_document_id == d)
        = mkPoints embed d fname base i chunks := by
  intro chunks
  induction chunks with
  | nil => intro base i; rfl
  | cons c t ih =>
    intro base i
    simp [mkPoints, List.filter_cons, ih]

theorem mkEmbRows_mkPoints_correspond (embed : List Char → List Int) (d : Nat)
    (fname : List Char) :
    ∀ (chunks : List Chunk) (base base' i : Nat), base ≠ base' →
      ∀ r ∈ mkEmbRows embed d base i chunks,
        ∃ p ∈ mkPoints embed d fname base' i chunks,
          p.vector = r.embedding ∧ p.payload_chunk_index = r.chunk_index ∧
          p.payload_chunk_text = r.chunk_text ∧
          p.payload_metadata = r.chunk_metadata ∧ p.id ≠ r.id := by
  intro chunks
  induction chunks with
  | nil => intro base base' i hne r hr; cases hr
  | cons c t ih =>
    intro base base' i hne r hr
    rcases List.mem_cons.mp hr with rfl | hrt
    · refine ⟨_, List.mem_cons_self _ _, rfl, rfl, rfl, rfl, ?_⟩
      simpa using fun he => hne he.symm
    · obtain ⟨p, hp, hprops⟩ := ih (base + 1) (base' + 1) (i + 1) (by omega) r hrt
      exact ⟨p, List.mem_cons_of_mem _ hp, hprops⟩

/-- Claim C1, counterexample: in a fully successful ingestion run the
document completes (`processed`) yet the claimed same-identifier
dual-store invariant is false: the relational `embedding_id` and the
Qdrant point id of the same chunk are two independently generated
uuids (the single chunk gets relational id 0 but point id 1). -/
theorem c1_counterexample :
    statusOf (runOn envAllOk) 7 = some Status.processed ∧
      (relRowsFor (runOn envAllOk) 7).map EmbRow.id = [0] ∧
      (pointsFor (runOn envAllOk) 7).map QPoint.id = [1] ∧
      dualStoreSameIdCheck (runOn envAllOk) 7 = false :=
  ⟨by decide, by decide, by decide, by decide⟩

/-- Claim C1, amended: for every document that completes ingestion
successfully, the number of chunk rows inserted into the relational
store equals the number of chunks produced by `chunk_text` on its
extracted text, and each relational chunk row has a corresponding
vector-store point with the same vector and the same chunk payload
(index, text, metadata) — but under an independently generated
identifier distinct from the relational row's id. -/
theorem c1_amended (env : RunEnv) (docId : Nat) (fname text : List Char)
    (cs ov : Nat) (st : SysState)
    (hex : env.extractResult = .ok text)
    (htx : env.txOk = true) (hvec : env.vecOk = true)
    (hch : chunk_text text cs ov ≠ [])
    (hrel : relRowsFor st docId = []) (hpts : pointsFor st docId = []) :
    (relRowsFor (process_document_background env docId fname cs ov st) docId).length
        = (chunk_text text cs ov).length ∧
      ∀ r ∈ relRowsFor (process_document_background env docId fname cs ov st) docId,
        ∃ p ∈ pointsFor (process_document_background env docId fname cs ov st) docId,
          p.vector = r.embedding ∧ p.payload_chunk_index = r.chunk_index ∧
          p.payload_chunk_text = r.chunk_text ∧
          p.payload_metadata = r.chunk_metadata ∧ p.id ≠ r.id := by
  unfold process_document_background
  rw [hex]
  dsimp only
  rw [if_neg hch, htx, if_pos rfl, hvec, if_pos rfl]
  unfold relRowsFor at hrel ⊢
  unfold pointsFor at hpts ⊢
  dsimp only
  rw [updateDocRow_embRows, updateDocRow_qPoints, updateDocRow_nextUuid]
  rw [List.filter_append, List.filter_append, hrel, hpts]
  rw [List.nil_append, List.nil_append]
  rw [mkEmbRows_filter_docId, mkPoints_filter_docId]
  refine ⟨mkEmbRows_length _ _ _ _ _, ?_⟩
  have hk : (chunk_text text cs ov).length ≠ 0 := by
    intro h
    exact hch (List.length_eq_zero.mp h)
  exact mkEmbRows_mkPoints_correspond env.embed docId fname (chunk_text text cs ov)
    st.nextUuid (st.nextUuid + (chunk_text text cs ov).length) 0 (by omega)

/-- Witness for the amended C1 at a concrete input: a successful run of
the one-chunk document "hello" from the empty store. -/
theorem c1_amended_witness :
    (envAllOk.extractResult = .ok "hello".toList ∧ envAllOk.txOk = true ∧
      envAllOk.vecOk = true ∧ chunk_text "hello".toList 500 50 ≠ [] ∧
      relRowsFor (upload_document 7 "f.txt".toList emptyState) 7 = [] ∧
      pointsFor (upload_document 7 "f.txt".toList emptyState) 7 = []) ∧
    ((relRowsFor (runOn envAllOk) 7).length
        = (chunk_text "hello".toList 500 50).length ∧
      ∀ r ∈ relRowsFor (runOn envAllOk) 7,
        ∃ p ∈ pointsFor (runOn envAllOk) 7,
          p.vector = r.embedding ∧ p.payload_chunk_index = r.chunk_index ∧
          p.payload_chunk_text = r.chunk_text ∧
          p.payload_metadata = r.chunk_metadata ∧ p.id ≠ r.id) :=
  ⟨⟨by decide, by decide, by decide, by decide, by decide, by decide⟩,
    c1_amended envAllOk 7 "f.txt".toList "hello".toList 500 50
      (upload_document 7 "f.txt".toList emptyState)
      (by decide) (by decide) (by decide) (by decide) (by decide) (by decide)⟩

/-- Claim C2, counterexample: in a run whose relational transaction
commits (`txOk`) but whose vector upsert fails, the document's
persisted status does not remain `processed`: the generic exception
handler flips it to `error`. -/
theorem c2_counterexample :
    statusOf (runOn envVecFail) 7 = some Status.error ∧
      statusOf (runOn envVecFail) 7 ≠ some Status.processed :=
  ⟨by decide, by decide⟩

/-- Claim C2, amended: when the relational transaction commits and the
subsequent vector upsert fails (and the error-status UPDATE itself
succeeds), the exception handler sets the document's persisted status
to `error` — flipping the already-committed `processed` — while the
committed chunk rows remain in the relational store and nothing is
written to the vector store. -/
theorem c2_amended (env : RunEnv) (docId : Nat) (fname text : List Char)
    (cs ov : Nat) (st : SysState) (row : DocRow)
    (hex : env.extractResult = .ok text)
    (htx : env.txOk = true) (hvec : env.vecOk = false) (herr : env.errUpdOk = true)
    (hch : chunk_text text cs ov ≠ [])
    (hrow : st.docs.lookup docId = some row) :
    statusOf (process_document_background env docId fname cs ov st) docId
        = some Status.error ∧
      (process_document_background env docId fname cs ov st).embRows
        = st.embRows ++ mkEmbRows env.embed docId st.nextUuid 0 (chunk_text text cs ov) ∧
      (process_document_background env docId fname cs ov st).qPoints = st.qPoints := by
  unfold process_document_background
  rw [hex]
  dsimp only
  rw [if_neg hch, htx, if_pos rfl, hvec]
  rw [if_neg Bool.false_ne_true]
  unfold runErrorHandler
  rw [herr, if_pos rfl]
  refine ⟨?_, ?_, ?_⟩
  · rw [statusOf_updateDocRow]
    dsimp only
    rw [updateDocRow_lookup, hrow]
    rfl
  · rw [updateDocRow_embRows]
    dsimp only
    rw [updateDocRow_embRows, updateDocRow_nextUuid]
  · rw [updateDocRow_qPoints]
    dsimp only
    rw [updateDocRow_qPoints]

/-- Witness for the amended C2 at a concrete input: the vector-failure
run on the one-chunk document "hello". -/
theorem c2_amended_witness :
    (envVecFail.extractResult = .ok "hello".toList ∧ envVecFail.txOk = true ∧
      envVecFail.vecOk = false ∧ envVecFail.errUpdOk = true ∧
      chunk_text "hello".toList 500 50 ≠ [] ∧
      (upload_document 7 "f.txt".toList emptyState).docs.lookup 7
        = some { filename := "f.txt".toList, content := none, status := .processing }) ∧
    (statusOf (runOn envVecFail) 7 = some Status.error ∧
      (runOn envVecFail).embRows
        = (upload_document 7 "f.txt".toList emptyState).embRows ++
            mkEmbRows envVecFail.embed 7
              (upload_document 7 "f.txt".toList emptyState).nextUuid 0
              (chunk_text "hello".toList 500 50) ∧
      (runOn envVecFail).qPoints
        = (upload_document 7 "f.txt".toList emptyState).qPoints) :=
  ⟨⟨by decide, by decide, by decide, by decide, by decide, by decide⟩,
    c2_amended envVecFail 7 "f.txt".toList "hello".toList 500 50
      (upload_document 7 "f.txt".toList emptyState)
      { filename := "f.txt".toList, content := none, status := .processing }
      (by decide) (by decide) (by decide) (by decide) (by decide) (by decide)⟩

/-- Claim C3, counterexample: in a run whose relational transaction
fails, the document's persisted status does not remain `processing`:
the exception handler sets it to `error`. -/
theorem c3_counterexample :
    statusOf (runOn envTxFail) 7 = some Status.error ∧
      statusOf (runOn envTxFail) 7 ≠ some Status.processing :=
  ⟨by decide, by decide⟩

/-- Claim C3, amended: a relational-transaction failure aborts the whole
dual-store write — no chunk row and no vector point from the run
becomes visible — and the exception handler then sets the document's
status to `error` (the status stays as it was only when that error
UPDATE itself also fails). -/
theorem c3_amended (env : RunEnv) (docId : Nat) (fname text : List Char)
    (cs ov : Nat) (st : SysState) (row : DocRow)
    (hex : env.extractResult = .ok text)
    (htx : env.txOk = false)
    (hch : chunk_text text cs ov ≠ [])
    (hrow : st.docs.lookup docId = some row) :
    (process_document_background env docId fname cs ov st).embRows = st.embRows ∧
      (process_document_background env docId fname cs ov st).qPoints = st.qPoints ∧
      statusOf (process_document_background env docId fname cs ov st) docId
        = (if env.errUpdOk then some Status.error else some row.status) := by
  unfold process_document_background
  rw [hex]
  dsimp only
  rw [if_neg hch, htx, if_neg Bool.false_ne_true]
  unfold runErrorHandler
  by_cases herr : env.errUpdOk = true
  · rw [herr, if_pos rfl, if_pos rfl]
    refine ⟨updateDocRow_embRows _ _ _, updateDocRow_qPoints _ _ _, ?_⟩
    rw [statusOf_updateDocRow, hrow]
    rfl
  · have herr' : env.errUpdOk = false := Bool.eq_false_iff.mpr herr
    rw [herr', if_neg Bool.false_ne_true, if_neg Bool.false_ne_true]
    exact ⟨rfl, rfl, by unfold statusOf; rw [hrow]; rfl⟩

/-- Witness for the amended C3 at a concrete input: the
transaction-failure run on the one-chunk document "hello". -/
theorem c3_amended_witness :
    (envTxFail.extractResult = .ok "hello".toList ∧ envTxFail.txOk = false ∧
      chunk_text "hello".toList 500 50 ≠ [] ∧
      (upload_document 7 "f.txt".toList emptyState).docs.lookup 7
        = some { filename := "f.txt".toList, content := none, status := .processing }) ∧
    ((runOn envTxFail).embRows = (upload_document 7 "f.txt".toList emptyState).embRows ∧
      (runOn envTxFail).qPoints = (upload_document 7 "f.txt".toList emptyState).qPoints ∧
      statusOf (runOn envTxFail) 7
        = (if envTxFail.errUpdOk then some Status.error
            else some Status.processing)) :=
  ⟨⟨by decide, by decide, by decide, by decide⟩,
    c3_amended envTxFail 7 "f.txt".toList "hello".toList 500 50
      (upload_document 7 "f.txt".toList emptyState)
      { filename := "f.txt".toList, content := none, status := .processing }
      (by decide) (by decide) (by decide) (by decide)⟩

theorem updateDocRow_statusLog_some (st : SysState) (d : Nat)
    (f : DocRow → DocRow) (row : DocRow) (h : st.docs.lookup d = some row) :
    (updateDocRow st d f).statusLog = st.statusLog ++ [(d, (f row).status)] := by
  unfold updateDocRow
  rw [h]

theorem updateDocRow_statusLog_eq (s : SysState) (d : Nat) (f : DocRow → DocRow) :
    (updateDocRow s d f).statusLog
      = s.statusLog ++ (match s.docs.lookup d with
          | none => []
          | some r => [(d, (f r).status)]) := by
  unfold updateDocRow
  cases s.docs.lookup d <;> simp

theorem process_statusLog_cases (env : RunEnv) (docId : Nat) (fname : List Char)
    (cs ov : Nat) (st : SysState) (row : DocRow)
    (hrow : st.docs.lookup docId = some row) :
    (process_document_background env docId fname cs ov st).statusLog = st.statusLog ∨
      (process_document_background env docId fname cs ov st).statusLog
          = st.statusLog ++ [(docId, Status.error)] ∨
      (process_document_background env docId fname cs ov st).statusLog
          = st.statusLog ++ [(docId, Status.processed)] ∨
      (process_document_background env docId fname cs ov st).statusLog
          = st.statusLog ++ [(docId, Status.processed), (docId, Status.error)] := by
  have hfalse : ∀ b : Bool, ¬ b = true → b = false := fun b h => Bool.eq_false_iff.mpr h
  unfold process_document_background runErrorHandler
  cases hex : env.extractResult with
  | raised e =>
    by_cases herr : env.errUpdOk = true
    · rw [herr, if_pos rfl, updateDocRow_statusLog_some st docId _ row hrow]
      exact Or.inr (Or.inl rfl)
    · rw [hfalse _ herr, if_neg Bool.false_ne_true]
      exact Or.inl rfl
  | ok text =>
    dsimp only
    by_cases hch : chunk_text text cs ov = []
    · rw [if_pos hch]
      by_cases herr : env.errUpdOk = true
      · rw [herr, if_pos rfl, updateDocRow_statusLog_some st docId _ row hrow]
        exact Or.inr (Or.inl rfl)
      · rw [hfalse _ herr, if_neg Bool.false_ne_true]
        exact Or.inl rfl
    · rw [if_neg hch]
      by_cases htx : env.txOk = true
      · rw [htx, if_pos rfl]
        by_cases hvec : env.vecOk = true
        · rw [hvec, if_pos rfl]
          try dsimp only
          rw [updateDocRow_statusLog_some st docId _ row hrow]
          exact Or.inr (Or.inr (Or.inl rfl))
        · rw [hfalse _ hvec, if_neg Bool.false_ne_true]
          by_cases herr : env.errUpdOk = true
          · rw [herr, if_pos rfl]
            rw [updateDocRow_statusLog_eq]
            try dsimp only
            rw [updateDocRow_lookup, hrow]
            try dsimp only
            rw [updateDocRow_statusLog_some st docId _ row hrow, List.append_assoc]
            exact Or.inr (Or.inr (Or.inr rfl))
          · rw [hfalse _ herr, if_neg Bool.false_ne_true]
            try dsimp only
            rw [updateDocRow_statusLog_some st docId _ row hrow]
            exact Or.inr (Or.inr (Or.inl rfl))
      · rw [hfalse _ htx, if_neg Bool.false_ne_true]
        by_cases herr : env.errUpdOk = true
        · rw [herr, if_pos rfl, updateDocRow_statusLog_some st docId _ row hrow]
          exact Or.inr (Or.inl rfl)
        · rw [hfalse _ herr, if_neg Bool.false_ne_true]
          exact Or.inl rfl

/-- Claim C5, counterexample: the run in which the vector upsert fails
after the relational commit writes the status history
`processing, processed, error` for the document — containing the
transition `processed → error`, which is outside the claimed transition
set (and shows `processed` is not final). -/
theorem c5_counterexample :
    docStatusLog (runOn envVecFail) 7
        = [Status.processing, Status.processed, Status.error] ∧
      logRespectsSpecTransitions (docStatusLog (runOn envVecFail) 7) = false :=
  ⟨by decide, by decide⟩

/-- Claim C5, amended: for a freshly uploaded document, every adjacent
pair in the history of persisted status writes is one of
`processing → processed`, `processing → error`, or `processed → error`
(the last occurring when a failure after the relational commit makes
the error handler overwrite a `processed` status); in particular
`error` is final and no other transition ever occurs. -/
theorem c5_amended (env : RunEnv) (docId : Nat) (fname : List Char) (cs ov : Nat) :
    logRespectsCodeTransitions
      (docStatusLog
        (process_document_background env docId fname cs ov
          (upload_document docId fname emptyState)) docId) = true := by
  have hrow : (upload_document docId fname emptyState).docs.lookup docId
      = some { filename := fname, content := none, status := .processing } := by
    unfold upload_document emptyState
    simp [List.lookup_cons]
  have hbase : (upload_document docId fname emptyState).statusLog
      = [(docId, Status.processing)] := rfl
  have hcases := process_statusLog_cases env docId fname cs ov
    (upload_document docId fname emptyState)
    { filename := fname, content := none, status := .processing } hrow
  unfold docStatusLog
  rcases hcases with h | h | h | h <;>
    simp [h, hbase, logRespectsCodeTransitions, codeTransition, List.filter_cons,
      List.filter_append]

/-- Claim C4 (code bug): with `overlap = 0` the Python slice
`current_chunk.split('.')[-overlap:]` is `[-0:]`, i.e. the whole list,
so the new buffer is seeded with every unit of the just-closed chunk:
`chunk_text "aaaa.bbbb"` with target size 4 and overlap 0 returns the
chunks "aaaa" and "aaaa. bbbb" — the unit "aaaa" is duplicated instead
of the chunks being non-overlapping as intended for overlap 0. -/
theorem c4_overlap_zero_full_carry :
    (chunk_text "aaaa.bbbb".toList 4 0).map Chunk.text
      = ["aaaa".toList, "aaaa. bbbb".toList] := by decide

/-- Claim C6 (code bug): for an unrecognized extension whose bytes are
not valid UTF-8, the inner `HTTPException(400, "Unsupported file
format: ...")` is swallowed by the bare `except Exception` handler of
`extract_text` and re-raised as the generic `"Failed to extract
text: ..."` wrapper, so the distinct UnsupportedFormat failure never
reaches the caller. -/
theorem c6_unsupported_format_wrapped :
    extract_text ⟨.ok "p".toList, .ok "d".toList, .exn "invalid start byte".toList⟩
        "file.xyz".toList
      = .raised (.http 400
          "Failed to extract text: 400: Unsupported file format: xyz".toList) ∧
    extract_text ⟨.ok "p".toList, .ok "d".toList, .exn "invalid start byte".toList⟩
        "file.xyz".toList
      ≠ .raised (.http 400 "Unsupported file format: xyz".toList) :=
  ⟨by decide, by decide⟩

/-- Claim C7 (code bug): the repository's own unit test
`test_chunk_text_single_sentence` chunks "This is a single sentence."
with chunk size 50 and asserts one chunk whose text equals the trimmed
input; `chunk_text` does return exactly one chunk, but its text is
"This is a single sentence" — the split on the period drops the final
period — which differs from the trimmed input. -/
theorem c7_single_sentence_period_dropped :
    (chunk_text "This is a single sentence.".toList 50 50).map Chunk.text
        = ["This is a single sentence".toList] ∧
      pyStrip "This is a single sentence.".toList
        ≠ "This is a single sentence".toList :=
  ⟨by decide, by decide⟩

theorem extract_text_lower (content : FileContent) (f : List Char) :
    extract_text content (f.map Char.toLower) = extract_text content f := by
  unfold extract_text
  rw [contains_dot_map_toLower, map_toLower_idem]

/-- Claim C9: `extract_text` dispatches on the filename extension
case-insensitively — any two filenames with the same lower-casing (for
example a stem with extension ".PDF" versus ".pdf") take the same
extraction path and yield the same result on the same content. -/
theorem c9_extension_case_insensitive (content : FileContent) (f g : List Char)
    (h : f.map Char.toLower = g.map Char.toLower) :
    extract_text content f = extract_text content g := by
  rw [← extract_text_lower content f, ← extract_text_lower content g, h]

/-- Witness for C9 at a concrete input: "a.PDF" and "a.pdf" on a
malformed PDF take the same path and produce the same error. -/
theorem c9_extension_case_insensitive_witness :
    ("a.PDF".toList.map Char.toLower = "a.pdf".toList.map Char.toLower) ∧
      extract_text ⟨.exn "broken pdf".toList, .ok "d".toList, .ok "t".toList⟩
          "a.PDF".toList
        = extract_text ⟨.exn "broken pdf".toList, .ok "d".toList, .ok "t".toList⟩
          "a.pdf".toList :=
  ⟨by decide,
    c9_extension_case_insensitive ⟨.exn "broken pdf".toList, .ok "d".toList, .ok "t".toList⟩
      "a.PDF".toList "a.pdf".toList (by decide)⟩
